import Mathlib

/-!
Shallow embedding of the `urd` metrics collector (src/main.go) and proofs
about its claims.  Go `float64` sample values are modelled as `ℚ`; the
claims under study concern accumulation/overwrite and control flow, not
floating-point rounding.  Go runtime panics (nil dereference, slice index
out of range) are modelled explicitly: a function that can panic returns
an `Option`, or a dedicated outcome constructor records the panic.
-/

/-! ## Exported metric set (Prometheus registry, sink operations)

Each catalog entry's Go closure performs exactly one write into the
process-wide Prometheus registry: `CounterVec.Add`, `GaugeVec.Set` or
`HistogramVec.Observe` on `WithLabelValues(...)`.  A `SinkOp` records
which write the closure performs: the metric family name, the label
values in order, and the sample value. -/

inductive SinkOp where
  | counterAdd : String → List String → ℚ → SinkOp
  | gaugeSet : String → List String → ℚ → SinkOp
  | histogramObserve : String → List String → ℚ → SinkOp
deriving DecidableEq

/-- The `elbMetric` struct of main.go: backend metric name, CloudWatch
statistic, and the Prometheus sink closure
`func(elbName string, svcName *string, ns *string, value float64)`. -/
structure elbMetric where
  MetricName : String
  Statistic : String
  Prometheus : String → String → String → ℚ → SinkOp

/-- The fixed metric catalog `var metrics = []elbMetric{...}` of main.go,
entry for entry, with each closure's registry write transcribed as the
`SinkOp` it performs (family names and label orders as registered in
`init()`). -/
def metrics : List elbMetric := [
  { MetricName := "HTTPCode_Backend_2XX", Statistic := "Sum",
    Prometheus := fun elbName svcName ns v =>
      SinkOp.counterAdd "urd_http_requests_total" ["2XX", elbName, svcName, ns] v },
  { MetricName := "HTTPCode_Backend_3XX", Statistic := "Sum",
    Prometheus := fun elbName svcName ns v =>
      SinkOp.counterAdd "urd_http_requests_total" ["3XX", elbName, svcName, ns] v },
  { MetricName := "HTTPCode_Backend_4XX", Statistic := "Sum",
    Prometheus := fun elbName svcName ns v =>
      SinkOp.counterAdd "urd_http_requests_total" ["4XX", elbName, svcName, ns] v },
  { MetricName := "HTTPCode_Backend_5XX", Statistic := "Sum",
    Prometheus := fun elbName svcName ns v =>
      SinkOp.counterAdd "urd_http_requests_total" ["5XX", elbName, svcName, ns] v },
  { MetricName := "HTTPCode_ELB_4XX", Statistic := "Sum",
    Prometheus := fun elbName svcName ns v =>
      SinkOp.counterAdd "urd_http_requests_total" ["ELB_4XX", elbName, svcName, ns] v },
  { MetricName := "HTTPCode_ELB_5XX", Statistic := "Sum",
    Prometheus := fun elbName svcName ns v =>
      SinkOp.counterAdd "urd_http_requests_total" ["ELB_5XX", elbName, svcName, ns] v },
  { MetricName := "BackendConnectionErrors", Statistic := "Sum",
    Prometheus := fun elbName svcName ns v =>
      SinkOp.counterAdd "backend_connection_errors_total" [elbName, svcName, ns] v },
  { MetricName := "HealthyHostCount", Statistic := "Average",
    Prometheus := fun elbName svcName ns v =>
      SinkOp.gaugeSet "urd_healthy_hosts_count" [elbName, svcName, ns] v },
  { MetricName := "Latency", Statistic := "Average",
    Prometheus := fun elbName svcName ns v =>
      SinkOp.histogramObserve "urd_average_elb_latency" [elbName, svcName, ns] v },
  { MetricName := "RequestCount", Statistic := "Sum",
    Prometheus := fun elbName svcName ns v =>
      SinkOp.counterAdd "urd_request_count" [elbName, svcName, ns] v },
  { MetricName := "SpilloverCount", Statistic := "Sum",
    Prometheus := fun elbName svcName ns v =>
      SinkOp.counterAdd "urd_spillovercount_total" [elbName, svcName, ns] v },
  { MetricName := "SurgeQueueLength", Statistic := "Maximum",
    Prometheus := fun elbName svcName ns v =>
      SinkOp.counterAdd "urd_surge_queue_length" [elbName, svcName, ns] v },
  { MetricName := "UnHealthyHostCount", Statistic := "Average",
    Prometheus := fun elbName svcName ns v =>
      SinkOp.gaugeSet "urd_unhealthy_hosts_count" [elbName, svcName, ns] v }]

/-! ## Name resolver (`elbNameFromElbDNS`)

The Go code compiles the regular expression `(.*)(?:-[0-9]{6})` and takes
`FindStringSubmatch(elbDNS)[1]`.  Go's regexp package uses leftmost-first
(Perl-preference) semantics, so the whole match starts at index 0 (`.*`
can be empty) and the greedy `(.*)` extends to the LAST index `k` at
which the input has a `'-'` followed by at least six decimal digits;
group 1 is then the prefix of length `k`.  If no such index exists,
`FindStringSubmatch` returns nil and the `[1]` index panics; this is
modelled by `none`.  Finally `strings.TrimPrefix(elbName, "internal-")`
removes one leading `internal-` if present. -/

/-- Does this suffix of the input start with `'-'` followed by at least
six decimal digits?  (One match attempt of `-[0-9]{6}`.) -/
def dashNumCheck : List Char → Bool
  | [] => false
  | c :: rest => c == '-' && decide (6 ≤ rest.length) && (rest.take 6).all Char.isDigit

/-- Largest index `k < n` of `s` at which `-[0-9]{6}` matches (searching
downwards from `n`), i.e. where the greedy `(.*)` group ends. -/
def lastMatchFrom (s : List Char) : Nat → Option Nat
  | 0 => none
  | n + 1 => if dashNumCheck (s.drop n) then some n else lastMatchFrom s n

/-- Group 1 of `regexp.FindStringSubmatch` for `(.*)(?:-[0-9]{6})`:
the prefix before the last `-[0-9]{6}` match, or `none` (Go: nil result,
indexing it panics) when the pattern does not occur. -/
def findSubmatch1 (s : List Char) : Option (List Char) :=
  match lastMatchFrom s s.length with
  | none => none
  | some k => some (s.take k)

/-- `strings.TrimPrefix(s, "internal-")`. -/
def stripInternal (s : List Char) : List Char :=
  if "internal-".toList.isPrefixOf s then s.drop ("internal-".toList.length) else s

/-- `elbNameFromElbDNS` of main.go; `none` models the panic on a
hostname in which `-[0-9]{6}` never matches. -/
def elbNameFromElbDNS (dns : List Char) : Option (List Char) :=
  (findSubmatch1 dns).map stripInternal

/-- No suffix of `s` begins a `-[0-9]{6}` match; true of real domain
tails such as `.us-east-1.elb.amazonaws.com`. -/
def cleanTail (s : List Char) : Prop := ∀ j, dashNumCheck (s.drop j) = false

lemma cleanTail_of_bounded (s : List Char)
    (h : ((List.range s.length).all fun j => !dashNumCheck (s.drop j)) = true) :
    cleanTail s := by
  intro j
  by_cases hj : j < s.length
  · have := List.all_eq_true.mp h j (List.mem_range.mpr hj)
    simpa using this
  · rw [List.drop_eq_nil_of_le (by omega)]
    rfl

lemma lastMatchFrom_eq_some (s : List Char) (p : Nat)
    (hp : dashNumCheck (s.drop p) = true)
    (hmax : ∀ k, p < k → dashNumCheck (s.drop k) = false) :
    ∀ n, p < n → lastMatchFrom s n = some p := by
  intro n
  induction n with
  | zero => intro h; omega
  | succ m ih =>
    intro h
    rcases Nat.lt_or_ge p m with hlt | hge
    · rw [lastMatchFrom, if_neg (by simp [hmax m hlt]), ih hlt]
    · have hpm : p = m := by omega
      subst hpm
      rw [lastMatchFrom, if_pos hp]

lemma isPrefixOf_append_self (p t : List Char) : p.isPrefixOf (p ++ t) = true := by
  induction p with
  | nil => simp [List.isPrefixOf]
  | cons a as ih => simp [List.isPrefixOf, ih]

lemma mem_of_isPrefixOf {p t : List Char} {c : Char}
    (h : p.isPrefixOf t = true) (hc : c ∈ p) : c ∈ t := by
  induction p generalizing t with
  | nil => simp at hc
  | cons a as ih =>
    cases t with
    | nil => simp [List.isPrefixOf] at h
    | cons b bs =>
      rw [List.isPrefixOf, Bool.and_eq_true] at h
      rcases List.mem_cons.mp hc with rfl | hcc
      · rw [eq_of_beq h.1]
        exact List.mem_cons_self _ _
      · exact List.mem_cons_of_mem _ (ih h.2 hcc)

/-- C3 (amended): for every hostname matching the expected pattern —
optional `internal-` prefix, an alphanumeric identifier, a dash, a
numeric suffix of at least six digits, a domain tail free of `-[0-9]{6}`
occurrences — the name resolver returns the identifier segment extending
up to but excluding the LAST `-NNNNNN` numeric group (which is the
separator dash; it coincides with the first such group whenever the
identifier itself starts no earlier match), with the `internal-` prefix
stripped exactly once: the result is exactly the identifier. -/
theorem c3_name_resolver (pre id suf dom : List Char)
    (hpre : pre = "internal-".toList ∨ pre = [])
    (hida : id.all Char.isAlphanum = true)
    (hsufd : suf.all Char.isDigit = true) (hsuf6 : 6 ≤ suf.length)
    (hdom : cleanTail dom) :
    elbNameFromElbDNS (pre ++ id ++ '-' :: (suf ++ dom)) = some id := by
  set s := (pre ++ id) ++ ('-' :: (suf ++ dom)) with hs
  set p := (pre ++ id).length with hplen
  have h1 : s.drop p = '-' :: (suf ++ dom) := List.drop_left _ _
  have htake6 : ((suf ++ dom).take 6).all Char.isDigit = true := by
    rw [List.take_append_eq_append_take, Nat.sub_eq_zero_of_le hsuf6]
    simp only [List.take_zero, List.append_nil]
    exact List.all_eq_true.mpr fun c hc =>
      List.all_eq_true.mp hsufd c (List.mem_of_mem_take hc)
  have hp : dashNumCheck (s.drop p) = true := by
    rw [h1]
    simp [dashNumCheck, htake6, List.length_append]
    omega
  have hdrop1 : s.drop (p + 1) = suf ++ dom := by
    have hstep : s.drop (p + 1) = (s.drop p).drop 1 := (List.drop_drop 1 p s).symm
    rw [hstep, h1]
    rfl
  have hmax : ∀ k, p < k → dashNumCheck (s.drop k) = false := by
    intro k hk
    have hds : s.drop k = (suf ++ dom).drop (k - (p + 1)) := by
      rw [← hdrop1, List.drop_drop]
      congr 1
      omega
    rw [hds]
    rcases Nat.lt_or_ge (k - (p + 1)) suf.length with hjs | hjs
    · rw [List.drop_append_eq_append_drop, Nat.sub_eq_zero_of_le (le_of_lt hjs),
        List.drop_zero, List.drop_eq_getElem_cons hjs, List.cons_append]
      have hd : (suf[k - (p + 1)]).isDigit = true :=
        List.all_eq_true.mp hsufd _ (List.getElem_mem hjs)
      have hne : (suf[k - (p + 1)] == '-') = false := by
        refine beq_eq_false_iff_ne.mpr fun he => ?_
        rw [he] at hd
        exact absurd hd (by decide)
      simp [dashNumCheck, hne]
    · rw [List.drop_append_eq_append_drop, List.drop_eq_nil_of_le hjs, List.nil_append]
      exact hdom _
  have hlen : p < s.length := by
    rw [hplen, hs]
    simp [List.length_append]
  have hlast : lastMatchFrom s s.length = some p :=
    lastMatchFrom_eq_some s p hp hmax s.length hlen
  show (findSubmatch1 s).map stripInternal = some id
  rw [findSubmatch1, hlast]
  simp only [Option.map_some']
  have htk : s.take p = pre ++ id := List.take_left _ _
  rw [htk]
  rcases hpre with h | h
  · subst h
    rw [stripInternal, if_pos (isPrefixOf_append_self _ _)]
    exact congrArg some (List.drop_left _ _)
  · subst h
    simp only [List.nil_append]
    rw [stripInternal, if_neg]
    intro hpf
    have hmem : '-' ∈ id := mem_of_isPrefixOf hpf (by decide)
    have := List.all_eq_true.mp hida '-' hmem
    exact absurd this (by decide)

/-- C3 witness: the specification's own example hostname resolves to the
bare identifier, via `c3_name_resolver`. -/
theorem c3_witness :
    elbNameFromElbDNS
        "internal-a8280213c611d114o7340onc0d34252-152337689.us-east-1.elb.amazonaws.com".toList
      = some "a8280213c611d114o7340onc0d34252".toList := by
  have h := c3_name_resolver "internal-".toList "a8280213c611d114o7340onc0d34252".toList
    "152337689".toList ".us-east-1.elb.amazonaws.com".toList (Or.inl rfl) (by decide)
    (by decide) (by decide) (cleanTail_of_bounded _ (by decide))
  have he :
      "internal-a8280213c611d114o7340onc0d34252-152337689.us-east-1.elb.amazonaws.com".toList
        = "internal-".toList ++ "a8280213c611d114o7340onc0d34252".toList
          ++ '-' :: ("152337689".toList ++ ".us-east-1.elb.amazonaws.com".toList) := by decide
  rw [he]
  exact h

/-- Smallest index of `s` at which `-[0-9]{6}` matches. -/
def firstMatchIn (s : List Char) : Option Nat :=
  (List.range s.length).find? fun k => dashNumCheck (s.drop k)

/-- Modelled from the spec: the claim's literal reading of the resolver
contract — return the segment extending up to but excluding the FIRST
`-NNNNNN` numeric group, `internal-` prefix stripped once.  Stated for
comparison against `elbNameFromElbDNS`, which was embedded from the
source and cuts at the last such group. -/
def specElbNameFirst (dns : List Char) : Option (List Char) :=
  (firstMatchIn dns).map fun k => stripInternal (dns.take k)

/-- A hostname matching the expected pattern of the specification:
optional `internal-` prefix, a (non-empty) alphanumeric identifier, a
dash, a numeric suffix of at least six digits, then a domain tail free
of `-[0-9]{6}` occurrences. -/
def ExpectedPattern (dns : List Char) : Prop :=
  ∃ pre id suf dom : List Char,
    (pre = "internal-".toList ∨ pre = []) ∧ id ≠ [] ∧ id.all Char.isAlphanum = true ∧
    suf.all Char.isDigit = true ∧ 6 ≤ suf.length ∧ cleanTail dom ∧
    dns = pre ++ id ++ '-' :: (suf ++ dom)

/-- C3 counterexample: a hostname matching the expected pattern (32-char
alphanumeric identifier beginning with six digits) on which the code cuts
at the LAST `-NNNNNN` group and returns the whole identifier, while the
claim's "first numeric group" reading would yield `internal`. -/
theorem c3_counterexample :
    ExpectedPattern
        "internal-123456abcdefghijklmnopqrstuvwxyz-9876543.us-east-1.elb.amazonaws.com".toList
    ∧ specElbNameFirst
        "internal-123456abcdefghijklmnopqrstuvwxyz-9876543.us-east-1.elb.amazonaws.com".toList
      = some "internal".toList
    ∧ elbNameFromElbDNS
        "internal-123456abcdefghijklmnopqrstuvwxyz-9876543.us-east-1.elb.amazonaws.com".toList
      = some "123456abcdefghijklmnopqrstuvwxyz".toList
    ∧ "internal".toList ≠ "123456abcdefghijklmnopqrstuvwxyz".toList := by
  refine ⟨⟨"internal-".toList, "123456abcdefghijklmnopqrstuvwxyz".toList, "9876543".toList,
    ".us-east-1.elb.amazonaws.com".toList, Or.inl rfl, by decide, by decide, by decide,
    by decide, cleanTail_of_bounded _ (by decide), by decide⟩, by decide, by decide, by decide⟩

/-! ## Service discovery (`getAllServices`, k8s collaborator)

`api.Service` fields used by main.go: `Spec.Type` (dereferenced
unconditionally), `Metadata.Name`, `Metadata.Namespace`, and
`Status.LoadBalancer.Ingress` (a slice; entry 0 is indexed
unconditionally, and its `Hostname` pointer dereferenced).  The ingress
hostname pointer may be nil, and the slice may be empty while the load
balancer is provisioning. -/

/-- One entry of `Status.LoadBalancer.Ingress`; `hostname = none` models
a nil `Hostname` pointer. -/
structure Ingress where
  hostname : Option String
deriving DecidableEq

/-- The parts of a k8s `api.Service` that main.go reads. -/
structure Service where
  name : String
  ns : String
  specType : String
  ingress : List Ingress
deriving DecidableEq

/-- Result of one `getAllServices` call.  `fatal` models `log.Fatal`
(error propagated, process aborts); `nilPanic` models dereferencing the
nil `namespaces` pointer after an ignored `ListNamespaces` error. -/
inductive DiscoveryOutcome where
  | fatal : String → DiscoveryOutcome
  | nilPanic : DiscoveryOutcome
  | ok : List Service → DiscoveryOutcome
deriving DecidableEq

/-- The namespace loop body of `getAllServices`: for each namespace list
its services (any listing error is `log.Fatal`) and keep those whose
`Spec.Type` is `"LoadBalancer"`. -/
def collectNamespaces (listServices : String → Except String (List Service)) :
    List String → Except String (List Service)
  | [] => .ok []
  | n :: rest =>
    match listServices n with
    | .error e => .error e
    | .ok svcs =>
      match collectNamespaces listServices rest with
      | .error e => .error e
      | .ok more => .ok (svcs.filter (fun s => s.specType == "LoadBalancer") ++ more)

/-- `getAllServices` of main.go.  Inputs are the collaborator results:
the `loadClient()` result, the `(namespaces, err)` pair returned by
`ListNamespaces` — the Go code never consults the `err` component, which
is why it is accepted and ignored here — and the per-namespace
`ListServices` results.  A nil namespace list (the usual companion of a
non-nil error) makes `namespaces.Items` panic. -/
def getAllServices (client : Except String Unit)
    (namespacesResp : Option (List String) × Option String)
    (listServices : String → Except String (List Service)) : DiscoveryOutcome :=
  match client with
  | .error e => .fatal e
  | .ok _ =>
    match namespacesResp.1 with
    | none => .nilPanic
    | some nss =>
      match collectNamespaces listServices nss with
      | .error e => .fatal e
      | .ok svcs => .ok svcs

/-- All services of all namespaces, unfiltered (for stating C8). -/
def allListed (g : String → List Service) : List String → List Service
  | [] => []
  | n :: rest => g n ++ allListed g rest

lemma collectNamespaces_ok (g : String → List Service) (nss : List String) :
    collectNamespaces (fun n => .ok (g n)) nss
      = .ok ((allListed g nss).filter (fun s => s.specType == "LoadBalancer")) := by
  induction nss with
  | nil => rfl
  | cons n rest ih => rw [collectNamespaces, ih, allListed, List.filter_append]

lemma mem_allListed (g : String → List Service) (nss : List String) (s : Service) :
    s ∈ allListed g nss ↔ ∃ n ∈ nss, s ∈ g n := by
  induction nss with
  | nil => simp [allListed]
  | cons n rest ih => simp [allListed, ih]

/-- C8: when the client loads and every listing call succeeds, service
discovery returns exactly the services, across all namespaces, whose
declared `Spec.Type` is `"LoadBalancer"`: every such service is included
and no service of any other type is. -/
theorem c8_discovery_filter (nss : List String) (g : String → List Service) :
    getAllServices (.ok ()) (some nss, none) (fun n => .ok (g n))
        = .ok ((allListed g nss).filter (fun s => s.specType == "LoadBalancer"))
    ∧ ∀ s : Service,
        s ∈ (allListed g nss).filter (fun s => s.specType == "LoadBalancer")
          ↔ (∃ n ∈ nss, s ∈ g n) ∧ s.specType = "LoadBalancer" := by
  constructor
  · simp [getAllServices, collectNamespaces_ok]
  · intro s
    rw [List.mem_filter, mem_allListed]
    simp

/-- C7 (code bug): the `err` returned by `ListNamespaces` is never
checked.  With the usual nil-list-on-error convention the process dies
from a nil-pointer dereference panic instead of propagating the error
via `log.Fatal`; and if the client ever returned a non-nil (empty) list
together with an error, discovery would silently succeed with an empty
service set. -/
theorem c7_namespaces_err_ignored :
    getAllServices (.ok ()) (none, some "connection refused") (fun _ => .ok [])
        = .nilPanic
    ∧ getAllServices (.ok ()) (some [], some "connection refused") (fun _ => .ok [])
        = .ok []
    ∧ DiscoveryOutcome.nilPanic ≠ DiscoveryOutcome.fatal "connection refused" := by
  refine ⟨rfl, rfl, by decide⟩

/-! ## Metric fetcher (`getElbMetric`, CloudWatch collaborator) -/

/-- One CloudWatch datapoint; each statistic field is a pointer that may
be nil. -/
structure Datapoint where
  sum : Option ℚ
  average : Option ℚ
  maximum : Option ℚ
  minimum : Option ℚ
deriving DecidableEq

/-- The `switch statisticType` of `getElbMetric`: select the requested
statistic from the first datapoint; an unknown statistic leaves the
`value` pointer nil. -/
def selectStat (dp : Datapoint) (statisticType : String) : Option ℚ :=
  if statisticType = "Sum" then dp.sum
  else if statisticType = "Average" then dp.average
  else if statisticType = "Maximum" then dp.maximum
  else if statisticType = "Minimum" then dp.minimum
  else none

/-- Result of one `getElbMetric` call: `fatal` models `log.Fatal` on a
backend error; otherwise the returned `*float64`, where `value none`
models a nil pointer (dereferenced, hence a panic, at the call site). -/
inductive FetchResult where
  | fatal : String → FetchResult
  | value : Option ℚ → FetchResult
deriving DecidableEq

/-- `getElbMetric` of main.go over an abstracted backend: the backend
maps (elbName, metricName, statisticType) to an error or a datapoint
list for the trailing 60-second window.  Zero datapoints yield a pointer
to `0`. -/
def getElbMetric (backend : String → String → String → Except String (List Datapoint))
    (elbName metricName statisticType : String) : FetchResult :=
  match backend elbName metricName statisticType with
  | .error e => .fatal e
  | .ok [] => .value (some 0)
  | .ok (dp :: _) => .value (selectStat dp statisticType)

/-- C6: whenever the backend returns zero datapoints for the window, the
fetch yields the defined value `0`, never a nil pointer and never an
error. -/
theorem c6_zero_datapoints
    (backend : String → String → String → Except String (List Datapoint))
    (elbName metricName statisticType : String)
    (h : backend elbName metricName statisticType = .ok []) :
    getElbMetric backend elbName metricName statisticType = .value (some 0)
    ∧ getElbMetric backend elbName metricName statisticType ≠ .value none
    ∧ ∀ e, getElbMetric backend elbName metricName statisticType ≠ .fatal e := by
  have hv : getElbMetric backend elbName metricName statisticType = .value (some 0) := by
    rw [getElbMetric, h]
  refine ⟨hv, ?_, fun e => ?_⟩
  · rw [hv]
    decide
  · rw [hv]
    exact fun hc => FetchResult.noConfusion hc

/-- C6 witness: a backend answering zero datapoints, evaluated. -/
theorem c6_witness :
    getElbMetric (fun _ _ _ => .ok []) "myelb" "RequestCount" "Sum" = .value (some 0) :=
  (c6_zero_datapoints (fun _ _ _ => .ok []) "myelb" "RequestCount" "Sum" rfl).1

/-! ## Collection cycle (`collectMetrics` and its `getMetric` tasks)

`collectMetrics` discovers services, does `wg.Add(len(services) *
len(metrics))`, spawns one goroutine per (metric, service) pair running
the `getMetric` closure, and blocks in `wg.Wait()` until every spawned
task has called `wg.Done()`.  An unrecovered panic inside a task
(`fault` below) kills the whole process. -/

/-- Outcome of one `getMetric` task.  `fault` models a runtime panic
(out-of-range index, nil dereference, nil-submatch index), `fatalStop`
models `log.Fatal` inside the fetch, `write` is the successful registry
write performed by the catalog entry's sink. -/
inductive TaskOutcome where
  | fault : TaskOutcome
  | fatalStop : String → TaskOutcome
  | write : SinkOp → TaskOutcome
deriving DecidableEq

/-- The `getMetric` closure of `collectMetrics`: index `Ingress[0]`,
dereference its `Hostname`, resolve the ELB name, fetch the statistic,
dereference the returned pointer, and invoke the entry's sink. -/
def runTask (backend : String → String → String → Except String (List Datapoint))
    (m : elbMetric) (s : Service) : TaskOutcome :=
  match s.ingress.head? with
  | none => .fault
  | some ing =>
    match ing.hostname with
    | none => .fault
    | some dns =>
      match elbNameFromElbDNS dns.toList with
      | none => .fault
      | some elbChars =>
        match getElbMetric backend (String.mk elbChars) m.MetricName m.Statistic with
        | .fatal e => .fatalStop e
        | .value none => .fault
        | .value (some v) => .write (m.Prometheus (String.mk elbChars) s.name s.ns v)

/-- The fan-out of `collectMetrics`: one task per (metric, service)
pair, outer loop over services, inner loop over the catalog. -/
def collectTasks : List Service → List (elbMetric × Service)
  | [] => []
  | s :: rest => metrics.map (fun m => (m, s)) ++ collectTasks rest

/-- WaitGroup counter after `wg.Add(len(services)*len(metrics))` and
`done` calls to `wg.Done()`; `wg.Wait` returns exactly when it is 0. -/
def wgCounterAfter (services : List Service) (done : Nat) : ℤ :=
  (services.length * metrics.length : ℤ) - done

lemma collectTasks_length (svcs : List Service) :
    (collectTasks svcs).length = svcs.length * metrics.length := by
  induction svcs with
  | nil => rfl
  | cons s rest ih =>
    rw [collectTasks, List.length_append, List.length_map, ih, List.length_cons]
    ring

/-- C1: a collection cycle over S discovered services and the fixed
catalog of K metrics issues exactly S×K fetch tasks — one per
(service, metric) pair — and the WaitGroup barrier reports completion
exactly when all S×K tasks have finished. -/
theorem c1_cycle_tasks (services : List Service) (done : Nat) :
    (collectTasks services).length = services.length * metrics.length
    ∧ (∀ p : elbMetric × Service,
        p ∈ collectTasks services ↔ p.1 ∈ metrics ∧ p.2 ∈ services)
    ∧ (wgCounterAfter services done = 0 ↔ done = (collectTasks services).length) := by
  refine ⟨collectTasks_length services, ?_, ?_⟩
  · intro p
    induction services with
    | nil => simp [collectTasks]
    | cons s rest ih =>
      rw [collectTasks]
      simp only [List.mem_append, List.mem_map, List.mem_cons, ih]
      constructor
      · rintro (⟨m, hm, rfl⟩ | ⟨h1, h2⟩)
        · exact ⟨hm, Or.inl rfl⟩
        · exact ⟨h1, Or.inr h2⟩
      · rintro ⟨h1, h2 | h2⟩
        · exact Or.inl ⟨p.1, h1, by rw [← h2]⟩
        · exact Or.inr ⟨h1, h2⟩
  · rw [wgCounterAfter, collectTasks_length services]
    have hcast : ((services.length * metrics.length : ℕ) : ℤ)
        = (services.length : ℤ) * (metrics.length : ℤ) := by push_cast; ring
    rw [← hcast]
    generalize (services.length * metrics.length : ℕ) = N
    omega

lemma expectedPattern_has_dash (dns : List Char) (h : ExpectedPattern dns) :
    '-' ∈ dns := by
  obtain ⟨pre, id, suf, dom, _, _, _, _, _, _, rfl⟩ := h
  exact List.mem_append.mpr (Or.inr (List.mem_cons_self _ _))

/-- A backend stub (never consulted before the panics under study). -/
def b0 : String → String → String → Except String (List Datapoint) := fun _ _ _ => .ok []

/-- The first catalog entry (HTTPCode_Backend_2XX). -/
def m0 : elbMetric := metrics.get ⟨0, by decide⟩

/-- A load-balanced service whose assigned hostname contains no
`-[0-9]{6}` group, so the resolver's regex never matches. -/
def svcNoMatch : Service :=
  { name := "web", ns := "default", specType := "LoadBalancer",
    ingress := [{ hostname := some "pending.elb.amazonaws.com" }] }

/-- C4 counterexample: a hostname that does not match the expected
pattern, on which the resolver has NO defined error/skip outcome — the
`FindStringSubmatch` result is nil, indexing it panics (`none` /
`fault`), the process aborts, and the cycle does not continue with the
service skipped. -/
theorem c4_counterexample :
    ¬ ExpectedPattern "pending.elb.amazonaws.com".toList
    ∧ elbNameFromElbDNS "pending.elb.amazonaws.com".toList = none
    ∧ runTask b0 m0 svcNoMatch = .fault := by
  refine ⟨fun h => ?_, by decide, by decide⟩
  have hd := expectedPattern_has_dash _ h
  revert hd
  decide

/-- C4 (amended): a hostname in which `-[0-9]{6}` never matches gives
the resolver no defined result (`FindStringSubmatch` nil, `[1]` panics);
the fan-out task processing such a service faults, aborting the whole
process, instead of skipping the service and continuing the cycle.
(A non-matching hostname that does contain such a group instead yields
the segment before its last occurrence, silently.) -/
theorem c4_no_match_faults
    (backend : String → String → String → Except String (List Datapoint))
    (m : elbMetric) (s : Service) (ig : Ingress) (dns : String)
    (hs : s.ingress.head? = some ig) (hig : ig.hostname = some dns)
    (hnm : findSubmatch1 dns.toList = none) :
    elbNameFromElbDNS dns.toList = none ∧ runTask backend m s = .fault := by
  have hr : elbNameFromElbDNS dns.toList = none := by
    rw [elbNameFromElbDNS, hnm]
    rfl
  refine ⟨hr, ?_⟩
  simp only [runTask, hs, hig, hr]

/-- A second no-match service, for the C4 witness. -/
def svcNoMatch2 : Service :=
  { name := "api", ns := "prod", specType := "LoadBalancer",
    ingress := [{ hostname := some "provisioning.elb.amazonaws.com" }] }

/-- C4 witness: `c4_no_match_faults` evaluated on a concrete service. -/
theorem c4_witness :
    elbNameFromElbDNS "provisioning.elb.amazonaws.com".toList = none
    ∧ runTask b0 m0 svcNoMatch2 = .fault :=
  c4_no_match_faults b0 m0 svcNoMatch2 { hostname := some "provisioning.elb.amazonaws.com" }
    "provisioning.elb.amazonaws.com" rfl rfl (by decide)

/-- A load-balanced service whose load balancer has no ingress entry
yet (still provisioning). -/
def svcPending : Service :=
  { name := "web", ns := "default", specType := "LoadBalancer", ingress := [] }

/-- C5 counterexample: a discovered LoadBalancer service with an empty
ingress list is NOT tolerated as a transient state — the task indexes
`Ingress[0]` out of range and faults, aborting the cycle and process. -/
theorem c5_counterexample :
    svcPending.specType = "LoadBalancer" ∧ svcPending.ingress = []
    ∧ runTask b0 m0 svcPending = .fault :=
  ⟨rfl, rfl, rfl⟩

/-- C5 (amended): for every service whose ingress list is empty (public
hostname not yet assigned), the fan-out task faults with an
out-of-range index on `Ingress[0]`, aborting the cycle and the process;
the transient state is treated as a crash, not as a valid skip. -/
theorem c5_empty_ingress_faults
    (backend : String → String → String → Except String (List Datapoint))
    (m : elbMetric) (s : Service) (h : s.ingress = []) :
    runTask backend m s = .fault := by
  simp only [runTask, h]
  rfl

/-- A second pending service, for the C5 witness. -/
def svcPending2 : Service :=
  { name := "api", ns := "prod", specType := "LoadBalancer", ingress := [] }

/-- C5 witness: `c5_empty_ingress_faults` evaluated concretely. -/
theorem c5_witness : runTask b0 m0 svcPending2 = .fault :=
  c5_empty_ingress_faults b0 m0 svcPending2 rfl

/-! ## Exported metric set semantics (C9, C10)

The Prometheus registry state: series are created lazily on the first
write to a (family, label-tuple) key and never deleted.  A fresh
counter or gauge reads 0.  `Counter.Add` panics on a negative increment
(modelled `none`), `Gauge.Set` overwrites, and `Histogram.Observe` is
modelled by its effect on the accumulated sum. -/

/-- A series key: (metric family name, label values). -/
abbrev SeriesKey := String × List String

/-- Registry state as an association list over series keys. -/
abbrev Registry := List (SeriesKey × ℚ)

def getVal : Registry → SeriesKey → ℚ
  | [], _ => 0
  | (k1, v1) :: rest, k => if k1 = k then v1 else getVal rest k

def setVal : Registry → SeriesKey → ℚ → Registry
  | [], k, v => [(k, v)]
  | (k1, v1) :: rest, k, v =>
    if k1 = k then (k1, v) :: rest else (k1, v1) :: setVal rest k v

def opKey : SinkOp → SeriesKey
  | .counterAdd f ls _ => (f, ls)
  | .gaugeSet f ls _ => (f, ls)
  | .histogramObserve f ls _ => (f, ls)

def opVal : SinkOp → ℚ
  | .counterAdd _ _ v => v
  | .gaugeSet _ _ v => v
  | .histogramObserve _ _ v => v

/-- Apply one sink write to the registry. -/
def applySink (st : Registry) : SinkOp → Option Registry
  | .counterAdd f ls v =>
    if 0 ≤ v then some (setVal st (f, ls) (getVal st (f, ls) + v)) else none
  | .gaugeSet f ls v => some (setVal st (f, ls) v)
  | .histogramObserve f ls v => some (setVal st (f, ls) (getVal st (f, ls) + v))

/-- Apply a sequence of sink writes (e.g. all writes of any number of
collection cycles, in commit order). -/
def runOps : Registry → List SinkOp → Option Registry
  | st, [] => some st
  | st, op :: rest => (applySink st op).bind fun st1 => runOps st1 rest

inductive FamilyKind where
  | counter : FamilyKind
  | gauge : FamilyKind
  | histogram : FamilyKind
deriving DecidableEq

/-- The vector kind each family name was registered with in `init()`. -/
def familyKind (f : String) : Option FamilyKind :=
  if f = "urd_http_requests_total" then some .counter
  else if f = "backend_connection_errors_total" then some .counter
  else if f = "urd_healthy_hosts_count" then some .gauge
  else if f = "urd_average_elb_latency" then some .histogram
  else if f = "urd_request_count" then some .counter
  else if f = "urd_spillovercount_total" then some .counter
  else if f = "urd_surge_queue_length" then some .counter
  else if f = "urd_unhealthy_hosts_count" then some .gauge
  else none

def opFamKind : SinkOp → FamilyKind
  | .counterAdd _ _ _ => .counter
  | .gaugeSet _ _ _ => .gauge
  | .histogramObserve _ _ _ => .histogram

/-- A sink op whose family was registered with the matching vector
kind. -/
def wellKinded (op : SinkOp) : Prop := familyKind (opKey op).1 = some (opFamKind op)

/-- A sink op producible by some catalog entry. -/
def fromCatalog (op : SinkOp) : Prop :=
  ∃ m, m ∈ metrics ∧ ∃ e s n v, op = m.Prometheus e s n v

lemma catalog_wellKinded (op : SinkOp) (h : fromCatalog op) : wellKinded op := by
  obtain ⟨m, hm, e, s, n, v, rfl⟩ := h
  fin_cases hm <;> rfl

lemma getVal_setVal (st : Registry) (k k1 : SeriesKey) (v : ℚ) :
    getVal (setVal st k v) k1 = if k = k1 then v else getVal st k1 := by
  induction st with
  | nil => simp [setVal, getVal]
  | cons hd rest ih =>
    obtain ⟨k2, v2⟩ := hd
    by_cases h2 : k2 = k
    · subst h2
      simp only [setVal, if_pos rfl, getVal]
      by_cases h1 : k2 = k1
      · simp [h1]
      · simp [h1, getVal]
    · simp only [setVal, if_neg h2, getVal, ih]
      by_cases h1 : k2 = k1
      · subst h1
        have hk : k ≠ k2 := fun hh => h2 hh.symm
        simp [hk]
      · simp [h1]

/-- The value most recently written to key `k` in `ops`, defaulting to
`x0` when no op targets `k` (gauge overwrite semantics). -/
def lastWrittenOr (x0 : ℚ) (k : SeriesKey) (ops : List SinkOp) : ℚ :=
  ops.foldl (fun x op => if opKey op = k then opVal op else x) x0

lemma applySink_getVal_ne (st st1 : Registry) (op : SinkOp) (k : SeriesKey)
    (happ : applySink st op = some st1) (hne : opKey op ≠ k) :
    getVal st1 k = getVal st k := by
  cases op with
  | counterAdd f ls v =>
    rw [applySink] at happ
    by_cases hv : 0 ≤ v
    · rw [if_pos hv] at happ
      obtain rfl := Option.some.inj happ
      rw [getVal_setVal]
      exact if_neg fun hh => hne hh
    · rw [if_neg hv] at happ
      simp at happ
  | gaugeSet f ls v =>
    rw [applySink] at happ
    obtain rfl := Option.some.inj happ
    rw [getVal_setVal]
    exact if_neg fun hh => hne hh
  | histogramObserve f ls v =>
    rw [applySink] at happ
    obtain rfl := Option.some.inj happ
    rw [getVal_setVal]
    exact if_neg fun hh => hne hh

lemma kind_clash (op : SinkOp) (k : SeriesKey) (K : FamilyKind)
    (hwk : wellKinded op) (hkey : opKey op = k)
    (hk : familyKind k.1 = some K) : opFamKind op = K := by
  rw [wellKinded, hkey, hk] at hwk
  exact (Option.some.inj hwk).symm

/-- C9: across any successfully committed sequence of catalog sink
writes, for every fixed series key, counter-family series never
decrease (monotone over the process lifetime, the initial state being
arbitrary), and gauge-family series hold exactly the most recently
written value — each write overwrites the prior one. -/
theorem c9_registry (ops : List SinkOp) (st0 stN : Registry) (k : SeriesKey)
    (hops : ∀ op ∈ ops, fromCatalog op)
    (hrun : runOps st0 ops = some stN) :
    (familyKind k.1 = some FamilyKind.counter → getVal st0 k ≤ getVal stN k)
    ∧ (familyKind k.1 = some FamilyKind.gauge →
        getVal stN k = lastWrittenOr (getVal st0 k) k ops) := by
  induction ops generalizing st0 with
  | nil =>
    rw [runOps] at hrun
    obtain rfl := Option.some.inj hrun
    exact ⟨fun _ => le_refl _, fun _ => rfl⟩
  | cons op rest ih =>
    rw [runOps] at hrun
    cases happ : applySink st0 op with
    | none =>
      rw [happ] at hrun
      simp at hrun
    | some st1 =>
      rw [happ, Option.some_bind] at hrun
      have hwk : wellKinded op := catalog_wellKinded op (hops op (List.mem_cons_self _ _))
      have ihs := ih st1 (fun o ho => hops o (List.mem_cons_of_mem _ ho)) hrun
      constructor
      · intro hk
        refine le_trans ?_ (ihs.1 hk)
        by_cases hkey : opKey op = k
        · cases op with
          | counterAdd f ls v =>
            rw [applySink] at happ
            by_cases hv : 0 ≤ v
            · rw [if_pos hv] at happ
              obtain rfl := Option.some.inj happ
              have hfk : (f, ls) = k := hkey
              rw [getVal_setVal, if_pos hfk, hfk]
              exact le_add_of_nonneg_right hv
            · rw [if_neg hv] at happ
              simp at happ
          | gaugeSet f ls v =>
            have := kind_clash _ _ _ hwk hkey hk
            simp [opFamKind] at this
          | histogramObserve f ls v =>
            have := kind_clash _ _ _ hwk hkey hk
            simp [opFamKind] at this
        · rw [applySink_getVal_ne st0 st1 op k happ hkey]
      · intro hk
        rw [lastWrittenOr, List.foldl_cons]
        have hstep : getVal st1 k = if opKey op = k then opVal op else getVal st0 k := by
          by_cases hkey : opKey op = k
          · rw [if_pos hkey]
            cases op with
            | counterAdd f ls v =>
              have := kind_clash _ _ _ hwk hkey hk
              simp [opFamKind] at this
            | gaugeSet f ls v =>
              rw [applySink] at happ
              obtain rfl := Option.some.inj happ
              have hfk : (f, ls) = k := hkey
              rw [getVal_setVal, if_pos hfk]
              rfl
            | histogramObserve f ls v =>
              have := kind_clash _ _ _ hwk hkey hk
              simp [opFamKind] at this
          · rw [if_neg hkey]
            exact applySink_getVal_ne st0 st1 op k happ hkey
        rw [ihs.2 hk, lastWrittenOr, hstep]

/-- Writes of two cycles over one service: the 2XX request counter gets
5 then 2; the healthy-host gauge gets 3 then 1. -/
def opsC : List SinkOp :=
  [ .counterAdd "urd_http_requests_total" ["2XX", "myelb", "web", "default"] 5,
    .gaugeSet "urd_healthy_hosts_count" ["myelb", "web", "default"] 3,
    .counterAdd "urd_http_requests_total" ["2XX", "myelb", "web", "default"] 2,
    .gaugeSet "urd_healthy_hosts_count" ["myelb", "web", "default"] 1 ]

/-- Registry state after committing `opsC` from empty. -/
def regC : Registry :=
  [ (("urd_http_requests_total", ["2XX", "myelb", "web", "default"]), 7),
    (("urd_healthy_hosts_count", ["myelb", "web", "default"]), 1) ]

/-- C9 witness: `c9_registry` evaluated on the concrete run `opsC` —
the counter series ends at 7 (never below its start 0) and the gauge
series ends at exactly the last written value 1. -/
theorem c9_witness :
    getVal ([] : Registry) ("urd_http_requests_total", ["2XX", "myelb", "web", "default"])
      ≤ getVal regC ("urd_http_requests_total", ["2XX", "myelb", "web", "default"])
    ∧ getVal regC ("urd_healthy_hosts_count", ["myelb", "web", "default"])
        = lastWrittenOr
            (getVal ([] : Registry) ("urd_healthy_hosts_count", ["myelb", "web", "default"]))
            ("urd_healthy_hosts_count", ["myelb", "web", "default"]) opsC := by
  have hops : ∀ op ∈ opsC, fromCatalog op := by
    intro op hop
    fin_cases hop
    · exact ⟨metrics.get ⟨0, by decide⟩, List.get_mem _ _ _, "myelb", "web", "default", 5, rfl⟩
    · exact ⟨metrics.get ⟨7, by decide⟩, List.get_mem _ _ _, "myelb", "web", "default", 3, rfl⟩
    · exact ⟨metrics.get ⟨0, by decide⟩, List.get_mem _ _ _, "myelb", "web", "default", 2, rfl⟩
    · exact ⟨metrics.get ⟨7, by decide⟩, List.get_mem _ _ _, "myelb", "web", "default", 1, rfl⟩
  have hrun : runOps [] opsC = some regC := by
    norm_num [opsC, regC, runOps, applySink, getVal, setVal]
  exact ⟨(c9_registry opsC [] regC _ hops hrun).1 (by decide),
         (c9_registry opsC [] regC _ hops hrun).2 (by decide)⟩

lemma runOps_counterAdds (f : String) (ls : List String) (vs : List ℚ) :
    ∀ st0 stN : Registry,
      runOps st0 (vs.map fun v => SinkOp.counterAdd f ls v) = some stN →
        getVal stN (f, ls) = getVal st0 (f, ls) + vs.sum := by
  induction vs with
  | nil =>
    intro st0 stN h
    rw [List.map_nil, runOps] at h
    obtain rfl := Option.some.inj h
    simp
  | cons v vs ih =>
    intro st0 stN h
    rw [List.map_cons, runOps, applySink] at h
    by_cases hv : 0 ≤ v
    · rw [if_pos hv, Option.some_bind] at h
      rw [ih _ _ h, getVal_setVal, if_pos rfl, List.sum_cons]
      ring
    · rw [if_neg hv] at h
      simp at h

/-- C10: the `SurgeQueueLength` catalog entry fetches the `Maximum`
statistic and its sink ADDS the value to the counter family
`urd_surge_queue_length`, so after a sequence of cycles whose per-cycle
maxima are `vs`, that series has grown by exactly `vs.sum` — an
accumulating total of the per-cycle maxima, not the instantaneous queue
length of any single cycle. -/
theorem c10_surge (m : elbMetric) (hm : m ∈ metrics)
    (hname : m.MetricName = "SurgeQueueLength")
    (e s n : String) (vs : List ℚ) (st0 stN : Registry)
    (hrun : runOps st0 (vs.map fun v => m.Prometheus e s n v) = some stN) :
    m.Statistic = "Maximum"
    ∧ (∀ e1 s1 n1 v, m.Prometheus e1 s1 n1 v
        = SinkOp.counterAdd "urd_surge_queue_length" [e1, s1, n1] v)
    ∧ getVal stN ("urd_surge_queue_length", [e, s, n])
        = getVal st0 ("urd_surge_queue_length", [e, s, n]) + vs.sum := by
  have hme : m.Statistic = "Maximum"
      ∧ ∀ e1 s1 n1 v, m.Prometheus e1 s1 n1 v
          = SinkOp.counterAdd "urd_surge_queue_length" [e1, s1, n1] v := by
    fin_cases hm <;>
      first
        | exact absurd hname (by decide)
        | exact ⟨rfl, fun e1 s1 n1 v => rfl⟩
  have hmap : (vs.map fun v => m.Prometheus e s n v)
      = vs.map fun v => SinkOp.counterAdd "urd_surge_queue_length" [e, s, n] v := by
    simp only [hme.2]
  rw [hmap] at hrun
  exact ⟨hme.1, hme.2, runOps_counterAdds _ _ vs _ _ hrun⟩

/-- The `SurgeQueueLength` catalog entry. -/
def surgeEntry : elbMetric := metrics.get ⟨11, by decide⟩

/-- C10 witness: two cycles with per-cycle maxima 3 and 5 leave the
surge-queue counter at 0 + 8, via `c10_surge`. -/
theorem c10_witness :
    surgeEntry.Statistic = "Maximum"
    ∧ getVal [(("urd_surge_queue_length", ["myelb", "web", "default"]), 8)]
          ("urd_surge_queue_length", ["myelb", "web", "default"])
        = getVal ([] : Registry) ("urd_surge_queue_length", ["myelb", "web", "default"])
            + ([3, 5] : List ℚ).sum :=
  ⟨(c10_surge surgeEntry (List.get_mem _ _ _) rfl "myelb" "web" "default" [3, 5] []
      [(("urd_surge_queue_length", ["myelb", "web", "default"]), 8)]
      (by norm_num [surgeEntry, metrics, runOps, applySink, getVal, setVal])).1,
   (c10_surge surgeEntry (List.get_mem _ _ _) rfl "myelb" "web" "default" [3, 5] []
      [(("urd_surge_queue_length", ["myelb", "web", "default"]), 8)]
      (by norm_num [surgeEntry, metrics, runOps, applySink, getVal, setVal])).2.2⟩

/-! ## Scheduler (the `main` loop)

`main` loops forever: it records `begin`, runs `collectMetrics`,
computes `timediff := time.Now().Sub(begin)` and calls
`time.Sleep(time.Minute - timediff)`.  Durations are modelled in
nanoseconds (`ℤ`, as Go's `time.Duration`); `time.Sleep` returns
immediately on a non-positive argument. -/

/-- `time.Minute` in nanoseconds: the fixed period. -/
def fixedPeriod : ℤ := 60 * 1000000000

/-- The argument passed to `time.Sleep`: `time.Minute - timediff`
(possibly negative). -/
def sleepArg (elapsed : ℤ) : ℤ := fixedPeriod - elapsed

/-- Effective pause of `time.Sleep d`: a negative or zero duration
returns immediately. -/
def goSleep (d : ℤ) : ℤ := max d 0

/-- Wall-clock instant at which the next cycle starts: cycle start +
cycle duration + effective sleep. -/
def nextCycleStart (b elapsed : ℤ) : ℤ := b + elapsed + goSleep (sleepArg elapsed)

/-- C2: after a cycle of duration D the scheduler effectively sleeps
max(0, P − D): when D < P consecutive cycle starts are exactly P apart,
and when D ≥ P the sleep is zero and the next cycle starts immediately
(no negative sleep). -/
theorem c2_scheduler (b elapsed : ℤ) :
    goSleep (sleepArg elapsed) = max 0 (fixedPeriod - elapsed)
    ∧ (elapsed < fixedPeriod → nextCycleStart b elapsed = b + fixedPeriod)
    ∧ (fixedPeriod ≤ elapsed →
        goSleep (sleepArg elapsed) = 0 ∧ nextCycleStart b elapsed = b + elapsed) := by
  refine ⟨max_comm _ _, fun h => ?_, fun h => ?_⟩
  · rw [nextCycleStart, goSleep, sleepArg, max_eq_left (by omega)]
    ring
  · have hz : goSleep (sleepArg elapsed) = 0 := by
      rw [goSleep, sleepArg]
      exact max_eq_right (by omega)
    exact ⟨hz, by rw [nextCycleStart, hz, add_zero]⟩

/-- C2 witness: a 1-second cycle sleeps to a 60-second cadence; a
90-second cycle sleeps zero and restarts immediately. -/
theorem c2_witness :
    nextCycleStart 0 1000000000 = 0 + fixedPeriod
    ∧ goSleep (sleepArg 90000000000) = 0 := by
  refine ⟨(c2_scheduler 0 1000000000).2.1 (by decide), ?_⟩
  exact ((c2_scheduler 0 90000000000).2.2 (by decide)).1

/-- C1 witness: two discovered services and the 13-entry catalog give
26 tasks, and the WaitGroup barrier reports completion exactly at 26
finished tasks, via `c1_cycle_tasks`. -/
theorem c1_witness :
    (collectTasks [svcNoMatch, svcPending]).length = 2 * metrics.length
    ∧ (wgCounterAfter [svcNoMatch, svcPending] 26 = 0
        ↔ 26 = (collectTasks [svcNoMatch, svcPending]).length) :=
  ⟨(c1_cycle_tasks [svcNoMatch, svcPending] 26).1,
   (c1_cycle_tasks [svcNoMatch, svcPending] 26).2.2⟩

/-- A service that is not externally load-balanced. -/
def svcCluster : Service :=
  { name := "db", ns := "default", specType := "ClusterIP", ingress := [] }

/-- C8 witness: `c8_discovery_filter` evaluated on one namespace with
one LoadBalancer service and one ClusterIP service. -/
theorem c8_witness :
    getAllServices (.ok ()) (some ["default"], none)
        (fun _ => .ok [svcNoMatch, svcCluster])
      = .ok [svcNoMatch] := by
  have h := (c8_discovery_filter ["default"] (fun _ => [svcNoMatch, svcCluster])).1
  exact h.trans (by decide)
